import Mathlib

/-!
Verification development for the BitKaraoke server
(room/session state machine and playback scheduler).

The embedding follows the most developed server variant
(src/unnamed/part_003, first document): room creation/deletion,
script selection, character assignment, the startScene/advanceChar
karaoke tick loop, stopScene, endScene, plus the disconnect handler,
and the leaveRoom handler from the second document of the same file.

JavaScript objects used as string-keyed maps are embedded as
association lists; JavaScript truthiness checks on looked-up strings
are embedded explicitly (`truthyStr`).  Timers are embedded as a list
of outstanding timer identifiers in the system state, with
`setTimeout` appending a fresh identifier and `clearTimeout` erasing
the stored one.
-/

namespace BitK

/-- JS truthiness of a possibly-missing string value:
`undefined` and `""` are falsy, every other string is truthy. -/
def truthyStr : Option String → Bool
  | none => false
  | some s => !(s == "")

/-- Lookup in a JS-object-as-association-list: first pair with the key. -/
def lookupA (l : List (String × String)) (k : String) : Option String :=
  match l.find? (fun p => p.1 == k) with
  | some p => some p.2
  | none => none

/-- JS property assignment `obj[k] = v`: replace the binding if the key is
present, otherwise add it. -/
def setA (l : List (String × String)) (k v : String) : List (String × String) :=
  match l with
  | [] => [(k, v)]
  | p :: rest => if p.1 == k then (k, v) :: rest else p :: setA rest k v

/-- JS `delete obj[k]`: remove the (first) binding for the key. -/
def eraseA (l : List (String × String)) (k : String) : List (String × String) :=
  match l with
  | [] => []
  | p :: rest => if p.1 == k then rest else p :: eraseA rest k

/-- One dialogue line of a script: owning character and literal text. -/
structure Line where
  character : String
  text : List Char
  deriving DecidableEq, Repr

/-- A catalog script: id, character set, lines, optional per-script timing
overrides (the `scriptObj.karaokeStep ?? 2` etc. defaults in `selectScript`). -/
structure Script where
  id : String
  characters : List String
  lines : List Line
  karaokeStepOv : Option Nat
  baseDelayOv : Option Nat
  punctuationDelayOv : Option Nat
  deriving DecidableEq, Repr

/-- Per-room mutable state, the fields of `rooms[roomName]` in the source. -/
structure RoomInfo where
  admin : String
  members : List (String × String)
  script : Option String
  scriptData : Option Script
  characterAssignments : List (String × String)
  sceneStarted : Bool
  currentLineIndex : Nat
  currentCharIndex : Nat
  karaokeStep : Nat
  baseDelay : Nat
  punctuationDelay : Nat
  lineTimer : Option Nat
  deriving DecidableEq, Repr

/-- The fresh room object built by the `createRoom` handler. -/
def freshRoom (admin : String) : RoomInfo :=
  { admin := admin
    members := []
    script := none
    scriptData := none
    characterAssignments := []
    sceneStarted := false
    currentLineIndex := 0
    currentCharIndex := 0
    karaokeStep := 2
    baseDelay := 90
    punctuationDelay := 300
    lineTimer := none }

/-- Messages emitted by the server handlers. -/
inductive Msg where
  | errorMessage (s : String)
  | sceneStartedMsg (li ci : Nat)
  | lineProgress (li ci : Nat)
  | sceneFinished
  | sceneStopped
  | characterAssignmentsMsg (table : List (String × String))
  | roomDeleted (name : String)
  | roomStateMsg
  | scriptSelectedMsg
  | roomsMsg
  deriving DecidableEq, Repr

/-- An observable output: a broadcast to a room (`io.to(room).emit`),
a reply to the requesting connection (`socket.emit`), a global emit
(`io.emit`), or the eviction of a room's members (`socketsLeave`). -/
inductive Out where
  | broadcast (room : String) (m : Msg)
  | reply (m : Msg)
  | globalEmit (m : Msg)
  | evict (room : String)
  deriving DecidableEq, Repr

/-- The character class of the regex `/[.,!?]/` in `advanceChar`. -/
def isPunct (c : Char) : Bool :=
  c == '.' || c == ',' || c == '!' || c == '?'

/-- The scan loop of `advanceChar`:
`for (let i = 0; i < karaokeStep && ci + i < line.text.length; i++) {
   const char = line.text[ci + i]; step = i + 1;
   if (/[.,!?]/.test(char)) { delay = punctuationDelay; break; } }`.
`i` is the loop counter and `r` the remaining iteration budget
(`r = karaokeStep - i`, so `i < karaokeStep` iff `0 < r`); `step` and
`delay` are the loop-carried mutable variables. -/
def scanLoopGo (text : List Char) (ci punctD : Nat) :
    Nat → Nat → Nat → Nat → Nat × Nat
  | _i, 0, step, delay => (step, delay)
  | i, r + 1, step, delay =>
    if ci + i < text.length then
      if isPunct (text.getD (ci + i) ' ') then (i + 1, punctD)
      else scanLoopGo text ci punctD (i + 1) r (i + 1) delay
    else (step, delay)

/-- The `(step, delay)` pair computed by one tick of `advanceChar`,
starting from `step = 1`, `delay = baseDelay`. -/
def scanStep (text : List Char) (ci k baseD punctD : Nat) : Nat × Nat :=
  scanLoopGo text ci punctD 0 k 1 baseD

/-- Result of the `advanceChar` tick body: the mutated room object, the
emitted outputs, and `some d` when `setTimeout(advanceChar, d)` was
reached (`none` when the body returned without rescheduling). -/
structure TickResult where
  room : RoomInfo
  outs : List Out
  sched : Option Nat
  deriving DecidableEq, Repr

/-- The fixed room name the single-room system model plays in. -/
def theRoom : String := "stage"

/-- The body of `advanceChar` (src/unnamed/part_003 lines 271-311),
faithful to the source: stale-tick guard on `sceneStarted`, missing-line
guard, the scan loop, cursor advance, `lineProgress` broadcast,
line/scene completion handling, and rescheduling. -/
def advanceChar (r : RoomInfo) : TickResult :=
  if r.sceneStarted = false then ⟨r, [], none⟩
  else
    match r.scriptData with
    | none => ⟨r, [], none⟩
    | some sc =>
      match sc.lines.get? r.currentLineIndex with
      | none => ⟨r, [], none⟩
      | some line =>
        let p := scanStep line.text r.currentCharIndex r.karaokeStep
          r.baseDelay r.punctuationDelay
        let ci' := r.currentCharIndex + p.1
        let outs1 := [Out.broadcast theRoom
          (Msg.lineProgress r.currentLineIndex ci')]
        if ci' ≥ line.text.length then
          if r.currentLineIndex + 1 ≥ sc.lines.length then
            ⟨{ r with currentCharIndex := 0
                      currentLineIndex := r.currentLineIndex + 1
                      sceneStarted := false },
              outs1 ++ [Out.broadcast theRoom Msg.sceneFinished], none⟩
          else
            ⟨{ r with currentCharIndex := 0
                      currentLineIndex := r.currentLineIndex + 1 },
              outs1, some p.2⟩
        else
          ⟨{ r with currentCharIndex := ci' }, outs1, some p.2⟩

/-- System state for the single-room model: whether `rooms[theRoom]` is
present in the registry, the room object itself (which the `advanceChar`
closure keeps referencing even after the registry entry is deleted),
the identifiers of outstanding `setTimeout` callbacks, and the next
fresh timer identifier. -/
structure Sys where
  roomExists : Bool
  room : RoomInfo
  pending : List Nat
  nextId : Nat
  deriving DecidableEq, Repr

/-- The initial system: no room created yet, no timers. -/
def initSys : Sys :=
  { roomExists := false, room := freshRoom "", pending := [], nextId := 0 }

/-- Client-visible events of the single-room model.  `requester` carries
`socket.data.username` of the requesting connection where the handler
reads it; `tickFire` is the firing of the scheduled timer with the
given identifier. -/
inductive Ev where
  | createRoom (requester : Option String)
  | deleteRoom (requester : Option String)
  | selectScript (sid : String)
  | assignCharacter (ch user : String)
  | startScene
  | stopScene
  | endScene
  | tickFire (id : Nat)
  deriving DecidableEq, Repr

/-- Apply a tick result to the system: when the body reached
`roomInfo.lineTimer = setTimeout(advanceChar, delay)`, a fresh timer
identifier becomes outstanding and is stored in `lineTimer`. -/
def applyTick (s : Sys) (tr : TickResult) : Sys :=
  match tr.sched with
  | some _ =>
    { s with room := { tr.room with lineTimer := some s.nextId }
             pending := s.pending ++ [s.nextId]
             nextId := s.nextId + 1 }
  | none => { s with room := tr.room }

/-- `createRoom` handler (part_003 lines 83-127), projected to the single
room: unauthenticated and name-taken checks, then a fresh room object.
(The one-room-per-admin check over other rooms is vacuous here.) -/
def stepCreateRoom (requester : Option String) (s : Sys) : Sys × List Out :=
  match requester with
  | none => (s, [Out.reply (Msg.errorMessage "Unauthorized")])
  | some u =>
    if s.roomExists then
      (s, [Out.reply (Msg.errorMessage
        "Room name is already taken. Please choose a new name.")])
    else
      ({ s with roomExists := true, room := freshRoom u },
       [Out.globalEmit Msg.roomsMsg])

/-- `deleteRoom` handler (part_003 lines 131-159): silent return when the
room is absent, `Unauthorized` / admin-only errors to the requester,
otherwise notify and evict members, cancel the stored timer, delete the
registry entry (the room object itself survives in closures). -/
def stepDeleteRoom (requester : Option String) (s : Sys) : Sys × List Out :=
  if s.roomExists = false then (s, [])
  else
    match requester with
    | none => (s, [Out.reply (Msg.errorMessage "Unauthorized")])
    | some u =>
      if s.room.admin ≠ u then
        (s, [Out.reply (Msg.errorMessage
          "Only the room admin can delete this room")])
      else
        ({ s with roomExists := false
                  pending := match s.room.lineTimer with
                    | some t => s.pending.erase t
                    | none => s.pending },
         [Out.broadcast theRoom (Msg.roomDeleted theRoom), Out.evict theRoom,
          Out.globalEmit Msg.roomsMsg])

/-- `selectScript` handler (part_003 lines 199-228): look the script up in
the catalog, install it with its timing overrides (`?? 2`, `?? 90`,
`?? 300`), reset the cursor and `sceneStarted`, broadcast.  Note: it
neither touches `characterAssignments` nor cancels `lineTimer`. -/
def stepSelectScript (catalog : List Script) (sid : String) (s : Sys) :
    Sys × List Out :=
  if s.roomExists = false then (s, [])
  else
    match catalog.find? (fun sc => sc.id == sid) with
    | none => (s, [])
    | some sc =>
      ({ s with room := { s.room with
          script := some sid
          scriptData := some sc
          karaokeStep := sc.karaokeStepOv.getD 2
          baseDelay := sc.baseDelayOv.getD 90
          punctuationDelay := sc.punctuationDelayOv.getD 300
          currentLineIndex := 0
          currentCharIndex := 0
          sceneStarted := false } },
       [Out.broadcast theRoom Msg.scriptSelectedMsg])

/-- `assignCharacter` handler (part_003 lines 231-236): no-op when the room
is absent or the character already has a truthy claimant; otherwise
record the claim and broadcast the table.  (No membership check against
the selected script's character set.) -/
def stepAssignCharacter (ch user : String) (s : Sys) : Sys × List Out :=
  if s.roomExists = false then (s, [])
  else if truthyStr (lookupA s.room.characterAssignments ch) then (s, [])
  else
    let table := setA s.room.characterAssignments ch user
    ({ s with room := { s.room with characterAssignments := table } },
     [Out.broadcast theRoom (Msg.characterAssignmentsMsg table)])

/-- The cast-coverage precondition of `startScene`:
`scriptData.characters.every((ch) => characterAssignments[ch])`. -/
def allAssigned (sc : Script) (table : List (String × String)) : Bool :=
  sc.characters.all (fun ch => truthyStr (lookupA table ch))

/-- `startScene` handler (part_003 lines 248-314): silent return when the
room is absent or no script is selected; incomplete cast reported only
to the requester; on success set `sceneStarted`, reset the cursor,
broadcast the snapshot and run the first `advanceChar` inline. -/
def stepStartScene (s : Sys) : Sys × List Out :=
  if s.roomExists = false then (s, [])
  else
    match s.room.scriptData with
    | none => (s, [])
    | some sc =>
      if allAssigned sc s.room.characterAssignments = false then
        (s, [Out.reply (Msg.errorMessage "All characters must be assigned")])
      else
        let r1 := { s.room with sceneStarted := true
                                currentLineIndex := 0
                                currentCharIndex := 0 }
        let tr := advanceChar r1
        (applyTick { s with room := r1 } tr,
         Out.broadcast theRoom (Msg.sceneStartedMsg 0 0) :: tr.outs)

/-- `stopScene` handler (part_003 lines 326-338): always (when the room
exists) cancel the stored timer, clear `sceneStarted`, reset the cursor
and broadcast `sceneStopped`. -/
def stepStopScene (s : Sys) : Sys × List Out :=
  if s.roomExists = false then (s, [])
  else
    ({ s with room := { s.room with
        lineTimer := none
        sceneStarted := false
        currentLineIndex := 0
        currentCharIndex := 0 }
              pending := match s.room.lineTimer with
                | some t => s.pending.erase t
                | none => s.pending },
     [Out.broadcast theRoom Msg.sceneStopped])

/-- `endScene` handler (part_003 lines 341-355): same as `stopScene` plus
clearing the assignment table and broadcasting it. -/
def stepEndScene (s : Sys) : Sys × List Out :=
  if s.roomExists = false then (s, [])
  else
    ({ s with room := { s.room with
        lineTimer := none
        sceneStarted := false
        currentLineIndex := 0
        currentCharIndex := 0
        characterAssignments := [] }
              pending := match s.room.lineTimer with
                | some t => s.pending.erase t
                | none => s.pending },
     [Out.broadcast theRoom (Msg.characterAssignmentsMsg []),
      Out.broadcast theRoom Msg.sceneStopped])

/-- Firing of a scheduled timer: only an outstanding identifier can fire;
firing consumes it and runs the `advanceChar` body against the room
object captured by the closure (registry presence is not re-checked by
the body — only the `sceneStarted` guard). -/
def stepTickFire (id : Nat) (s : Sys) : Sys × List Out :=
  if id ∈ s.pending then
    let s0 := { s with pending := s.pending.erase id }
    let tr := advanceChar s0.room
    (applyTick s0 tr, tr.outs)
  else (s, [])

/-- One event of the single-room system. -/
def step (catalog : List Script) (s : Sys) : Ev → Sys × List Out
  | Ev.createRoom req => stepCreateRoom req s
  | Ev.deleteRoom req => stepDeleteRoom req s
  | Ev.selectScript sid => stepSelectScript catalog sid s
  | Ev.assignCharacter ch user => stepAssignCharacter ch user s
  | Ev.startScene => stepStartScene s
  | Ev.stopScene => stepStopScene s
  | Ev.endScene => stepEndScene s
  | Ev.tickFire id => stepTickFire id s

/-- Run a sequence of events, accumulating outputs. -/
def run (catalog : List Script) : Sys → List Ev → Sys × List Out
  | s, [] => (s, [])
  | s, e :: es =>
    let p := step catalog s e
    let q := run catalog p.1 es
    (q.1, p.2 ++ q.2)

/-- Concrete script with an empty lines sequence (used for the C4
counterexample). -/
def scEmpty : Script :=
  { id := "empty", characters := [], lines := []
    karaokeStepOv := none, baseDelayOv := none, punctuationDelayOv := none }

/-- Concrete script: no cast, one unpunctuated six-character line. -/
def scLong : Script :=
  { id := "long", characters := []
    lines := [{ character := "A", text := "abcdef".toList }]
    karaokeStepOv := none, baseDelayOv := none, punctuationDelayOv := none }

/-- Concrete script: cast `["A"]`, one line `"a,b"` with punctuation. -/
def scPunct : Script :=
  { id := "punct", characters := ["A"]
    lines := [{ character := "A", text := "a,b".toList }]
    karaokeStepOv := none, baseDelayOv := none, punctuationDelayOv := none }

/-- A small concrete catalog used by the concrete traces. -/
def catalogC : List Script := [scEmpty, scLong, scPunct]

/-- The first line of `scPunct`. -/
def linePunct : Line := { character := "A", text := "a,b".toList }

/-- A room in the middle of playing `scPunct`'s scene. -/
def rPunct : RoomInfo :=
  { freshRoom "a" with
      script := some "punct"
      scriptData := some scPunct
      characterAssignments := [("A", "bob")]
      sceneStarted := true }

/-- An existing idle room with no script selected. -/
def sIdle : Sys :=
  { roomExists := true, room := freshRoom "a", pending := [], nextId := 0 }

/-- An existing room with `scPunct` selected and an empty cast. -/
def sPunct : Sys :=
  { roomExists := true
    room := { freshRoom "a" with script := some "punct", scriptData := some scPunct }
    pending := [], nextId := 0 }

/-- An existing room with a scene running: one outstanding timer `0`,
stored in `lineTimer`. -/
def sRunning : Sys :=
  { roomExists := true
    room := { rPunct with lineTimer := some 0 }
    pending := [0], nextId := 1 }

/-- Single-chain timer well-formedness: the outstanding timers are at most
the one stored in the room's `lineTimer` handle. -/
def WFtimer (s : Sys) : Prop :=
  match s.room.lineTimer with
  | some t => s.pending = [] ∨ s.pending = [t]
  | none => s.pending = []

/-- The playback cursor denotes an existing line of the selected script. -/
def cursorOK (r : RoomInfo) : Prop :=
  match r.scriptData with
  | some sc => r.currentLineIndex < sc.lines.length
  | none => False

/-- The timer/active-flag invariant of the spec's data-model section:
an absent room has no outstanding timers; an existing room's timers are
single-chain, playback active implies an outstanding tick and a valid
cursor, and playback inactive implies no outstanding timer. -/
def InvC4 (s : Sys) : Prop :=
  (s.roomExists = false → s.pending = []) ∧
  (s.roomExists = true →
    WFtimer s ∧
    (s.room.sceneStarted = true → s.pending ≠ [] ∧ cursorOK s.room) ∧
    (s.room.sceneStarted = false → s.pending = []))

/-- Trace restriction under which the timer invariant is inductive:
`startScene` is issued only against an idle room whose selected script
has a nonempty lines sequence, and `selectScript` only against an idle
room.  (The counterexamples show the invariant fails without these.) -/
def allowedEv (s : Sys) : Ev → Prop
  | Ev.startScene =>
    s.roomExists = true →
      s.room.sceneStarted = false ∧
      ∀ sc, s.room.scriptData = some sc → sc.lines ≠ []
  | Ev.selectScript _ => s.room.sceneStarted = false
  | _ => True

/-- A trace each of whose events is allowed in the state it fires in. -/
def allowedTrace (catalog : List Script) : Sys → List Ev → Prop
  | _, [] => True
  | s, e :: es => allowedEv s e ∧ allowedTrace catalog (step catalog s e).1 es

/-- A dead system: the room has been removed from the registry and no
timer is outstanding. -/
def Dead (s : Sys) : Prop := s.roomExists = false ∧ s.pending = []

/-- Traces that never re-create the room. -/
def noCreate (evs : List Ev) : Prop :=
  ∀ req, Ev.createRoom req ∉ evs

/-- The `disconnect` handler (part_003 lines 358-374): remove the identity
from the global presence list (first occurrence, as
`indexOf`/`splice`), and delete the socket's entry from the members map
of every room where it is (truthily) present.  Character assignments
are not touched. -/
def disconnectStep (activeUsers : List String)
    (rooms : List (String × RoomInfo)) (sid : String)
    (username : Option String) : List String × List (String × RoomInfo) :=
  (match username with
   | some u => activeUsers.erase u
   | none => activeUsers,
   rooms.map (fun p =>
     if truthyStr (lookupA p.2.members sid) then
       (p.1, { p.2 with members := eraseA p.2.members sid })
     else p))

/-- The `leaveRoom` handler (part_003 lines 520-536, second document):
look up the leaver's name, delete its membership, and delete every
character assignment whose claimant string equals that name
(`characterAssignments[character] === username`). -/
def leaveRoomStep (r : RoomInfo) (sid : String) : RoomInfo :=
  let username := lookupA r.members sid
  { r with
      members := eraseA r.members sid
      characterAssignments :=
        r.characterAssignments.filter (fun kv => !(some kv.2 == username)) }

/-! ## Scan-loop characterization -/

/-- If the first punctuation character at or after position `i` of the scan
window sits at offset `j₀` (within the iteration budget and the text),
the loop stops there with `step = j₀ + 1` and the punctuation delay. -/
theorem scanLoopGo_punct (text : List Char) (ci punctD : Nat) :
    ∀ r i step delay j₀, i ≤ j₀ → j₀ < i + r → ci + j₀ < text.length →
      isPunct (text.getD (ci + j₀) ' ') = true →
      (∀ j, i ≤ j → j < j₀ → isPunct (text.getD (ci + j) ' ') = false) →
      scanLoopGo text ci punctD i r step delay = (j₀ + 1, punctD) := by
  intro r
  induction r with
  | zero =>
    intro i step delay j₀ h1 h2 _h3 _h4 _h5
    omega
  | succ r ih =>
    intro i step delay j₀ h1 h2 h3 h4 h5
    rcases eq_or_lt_of_le h1 with heq | hlt
    · subst heq
      simp only [scanLoopGo]
      rw [if_pos h3, if_pos h4]
    · have hlen : ci + i < text.length := by omega
      have hnp : isPunct (text.getD (ci + i) ' ') = false :=
        h5 i le_rfl hlt
      simp only [scanLoopGo]
      rw [if_pos hlen, hnp]
      simp only [Bool.false_eq_true, if_false]
      exact ih (i + 1) (i + 1) delay j₀ (by omega) (by omega) h3 h4
        (fun j hj1 hj2 => h5 j (by omega) hj2)

/-- If no character in the remaining scan window is punctuation, the loop
runs to the end of the window; when at least one iteration runs, `step`
ends at the window bound, and `delay` is left untouched. -/
theorem scanLoopGo_nopunct (text : List Char) (ci punctD : Nat) :
    ∀ r i step delay,
      (∀ j, i ≤ j → j < i + r → ci + j < text.length →
        isPunct (text.getD (ci + j) ' ') = false) →
      scanLoopGo text ci punctD i r step delay =
        (if i < min (i + r) (text.length - ci)
         then min (i + r) (text.length - ci) else step, delay) := by
  intro r
  induction r with
  | zero =>
    intro i step delay _h
    have hno : ¬ i < min (i + 0) (text.length - ci) := by omega
    rw [if_neg hno]
    rfl
  | succ r ih =>
    intro i step delay h
    simp only [scanLoopGo]
    by_cases hlen : ci + i < text.length
    · rw [if_pos hlen]
      have hnp : isPunct (text.getD (ci + i) ' ') = false :=
        h i le_rfl (by omega) hlen
      rw [hnp]
      simp only [Bool.false_eq_true, if_false]
      rw [ih (i + 1) (i + 1) delay
        (fun j hj1 hj2 hj3 => h j (by omega) (by omega) hj3)]
      simp only [Prod.mk.injEq, and_true]
      split_ifs <;> omega
    · rw [if_neg hlen]
      have hno : ¬ i < min (i + (r + 1)) (text.length - ci) := by omega
      rw [if_neg hno]

/-- `scanStep` when the first punctuation of the step window is at offset
`j₀`: the step is truncated to end at that character (inclusive) and
the delay is the punctuation delay. -/
theorem scanStep_punct (text : List Char) (ci k baseD punctD j₀ : Nat)
    (h2 : j₀ < k) (h3 : ci + j₀ < text.length)
    (h4 : isPunct (text.getD (ci + j₀) ' ') = true)
    (h5 : ∀ j, j < j₀ → isPunct (text.getD (ci + j) ' ') = false) :
    scanStep text ci k baseD punctD = (j₀ + 1, punctD) :=
  scanLoopGo_punct text ci punctD k 0 1 baseD j₀ (Nat.zero_le _)
    (by omega) h3 h4 (fun j _ hj => h5 j hj)

/-- `scanStep` when no character of the step window is punctuation: the
step is the whole window (the karaoke step, or the remaining tail of
the line, if shorter) and the delay is the base delay. -/
theorem scanStep_nopunct (text : List Char) (ci k baseD punctD : Nat)
    (hk : 1 ≤ k) (hci : ci < text.length)
    (h : ∀ j, j < min k (text.length - ci) →
      isPunct (text.getD (ci + j) ' ') = false) :
    scanStep text ci k baseD punctD = (min k (text.length - ci), baseD) := by
  have hmain := scanLoopGo_nopunct text ci punctD k 0 1 baseD
    (fun j _ hj2 hj3 => h j (by omega))
  simp only [Nat.zero_add] at hmain
  rw [scanStep, hmain, if_pos (by omega)]

/-- The tick body, on an active room whose cursor denotes an existing
line, broadcasts `lineProgress` with the cursor advanced by the scanned
step, and any rescheduling it performs uses the scanned delay. -/
theorem advanceChar_outs_sched (r : RoomInfo) (sc : Script) (line : Line)
    (hact : r.sceneStarted = true)
    (hsd : r.scriptData = some sc)
    (hline : sc.lines.get? r.currentLineIndex = some line) :
    (∃ rest, (advanceChar r).outs =
      Out.broadcast theRoom (Msg.lineProgress r.currentLineIndex
        (r.currentCharIndex +
          (scanStep line.text r.currentCharIndex r.karaokeStep
            r.baseDelay r.punctuationDelay).1)) :: rest) ∧
    (∀ d, (advanceChar r).sched = some d →
      d = (scanStep line.text r.currentCharIndex r.karaokeStep
            r.baseDelay r.punctuationDelay).2) := by
  simp only [advanceChar, hact, hsd, hline]
  split_ifs <;> simp_all

/-- C1: tick step/delay law.  For a room with a selected script and
playback active (with a positive karaoke step and the cursor inside the
current line), each `advanceChar` tick scans at most `karaokeStep`
characters forward from the cursor: if the first scanned punctuation
character (`[.,!?]`) sits at offset `j₀` of the window, the step is
truncated to end at that character (inclusive, so the broadcast cursor
is `ci + j₀ + 1`) and any rescheduled tick uses `punctuationDelay`;
if no scanned character is punctuation, the cursor advances by exactly
`karaokeStep` characters (or the remaining tail of the line, if
shorter) and any rescheduled tick uses `baseDelay`. -/
theorem c1_tick_step_delay_law (r : RoomInfo) (sc : Script) (line : Line)
    (hact : r.sceneStarted = true)
    (hsd : r.scriptData = some sc)
    (hline : sc.lines.get? r.currentLineIndex = some line)
    (hci : r.currentCharIndex < line.text.length)
    (hk : 1 ≤ r.karaokeStep) :
    (∀ j₀, j₀ < min r.karaokeStep (line.text.length - r.currentCharIndex) →
      isPunct (line.text.getD (r.currentCharIndex + j₀) ' ') = true →
      (∀ j, j < j₀ →
        isPunct (line.text.getD (r.currentCharIndex + j) ' ') = false) →
      (∃ rest, (advanceChar r).outs =
        Out.broadcast theRoom (Msg.lineProgress r.currentLineIndex
          (r.currentCharIndex + (j₀ + 1))) :: rest) ∧
      (∀ d, (advanceChar r).sched = some d → d = r.punctuationDelay)) ∧
    ((∀ j, j < min r.karaokeStep (line.text.length - r.currentCharIndex) →
      isPunct (line.text.getD (r.currentCharIndex + j) ' ') = false) →
      (∃ rest, (advanceChar r).outs =
        Out.broadcast theRoom (Msg.lineProgress r.currentLineIndex
          (r.currentCharIndex +
            min r.karaokeStep (line.text.length - r.currentCharIndex))) :: rest) ∧
      (∀ d, (advanceChar r).sched = some d → d = r.baseDelay)) := by
  have hbase := advanceChar_outs_sched r sc line hact hsd hline
  constructor
  · intro j₀ hj₀ hp hfirst
    have hscan : scanStep line.text r.currentCharIndex r.karaokeStep
        r.baseDelay r.punctuationDelay = (j₀ + 1, r.punctuationDelay) :=
      scanStep_punct line.text r.currentCharIndex r.karaokeStep
        r.baseDelay r.punctuationDelay j₀ (by omega) (by omega) hp hfirst
    rw [hscan] at hbase
    exact hbase
  · intro hnone
    have hscan : scanStep line.text r.currentCharIndex r.karaokeStep
        r.baseDelay r.punctuationDelay =
        (min r.karaokeStep (line.text.length - r.currentCharIndex),
         r.baseDelay) :=
      scanStep_nopunct line.text r.currentCharIndex r.karaokeStep
        r.baseDelay r.punctuationDelay hk hci hnone
    rw [hscan] at hbase
    exact hbase

/-- Witness for C1 at the concrete room `rPunct` playing `"a,b"` with
karaoke step 2: the comma at offset 1 truncates the step, the broadcast
cursor is 2 and the rescheduled delay is the punctuation delay 300. -/
theorem c1_witness :
    (∃ rest, (advanceChar rPunct).outs =
      Out.broadcast theRoom (Msg.lineProgress 0 2) :: rest) ∧
    (∀ d, (advanceChar rPunct).sched = some d → d = 300) := by
  have h := (c1_tick_step_delay_law rPunct scPunct linePunct (by decide)
    (by decide) (by decide) (by decide) (by decide)).1 1 (by decide)
    (by decide) (by decide)
  simpa using h

/-! ## Association-list lemmas -/

theorem lookupA_cons (p : String × String) (l : List (String × String))
    (k : String) :
    lookupA (p :: l) k = if p.1 == k then some p.2 else lookupA l k := by
  cases h : p.1 == k <;> simp [lookupA, List.find?, h]

theorem lookupA_setA (l : List (String × String)) (k v : String) :
    lookupA (setA l k v) k = some v := by
  induction l with
  | nil => simp [setA, lookupA, List.find?]
  | cons p l ih =>
    by_cases h : p.1 == k
    · simp [setA, h, lookupA_cons]
    · simp only [setA, h, if_false, Bool.false_eq_true]
      rw [lookupA_cons, if_neg (by simpa using h)]
      exact ih

/-- Any claimant surviving the `leaveRoom` filter differs from the
leaver's name. -/
theorem lookupA_filter_ne (l : List (String × String)) (u : Option String)
    (ch v : String) :
    lookupA (l.filter fun kv => !(some kv.2 == u)) ch = some v →
    (some v == u) = false := by
  induction l with
  | nil => intro h; simp [lookupA, List.find?] at h
  | cons p l ih =>
    intro h
    by_cases hkeep : (some p.2 == u) = false
    · rw [List.filter_cons_of_pos (by simp [hkeep])] at h
      rw [lookupA_cons] at h
      by_cases hk : p.1 == ch
      · rw [if_pos hk] at h
        cases h
        exact hkeep
      · rw [if_neg hk] at h
        exact ih h
    · rw [List.filter_cons_of_neg (by simpa using hkeep)] at h
      exact ih h

/-- An assignment whose claimant differs from the leaver's name survives
the `leaveRoom` filter with the same looked-up claimant. -/
theorem lookupA_filter_keep (l : List (String × String)) (u : Option String)
    (ch v : String) :
    lookupA l ch = some v → (some v == u) = false →
    lookupA (l.filter fun kv => !(some kv.2 == u)) ch = some v := by
  induction l with
  | nil => intro h _; simp [lookupA, List.find?] at h
  | cons p l ih =>
    intro h hv
    rw [lookupA_cons] at h
    by_cases hk : p.1 == ch
    · rw [if_pos hk] at h
      cases h
      rw [List.filter_cons_of_pos (by simp [hv])]
      rw [lookupA_cons, if_pos hk]
    · rw [if_neg hk] at h
      by_cases hkeep : (some p.2 == u) = false
      · rw [List.filter_cons_of_pos (by simp [hkeep])]
        rw [lookupA_cons, if_neg hk]
        exact ih h hv
      · rw [List.filter_cons_of_neg (by simpa using hkeep)]
        exact ih h hv

/-! ## C8: stale ticks are silently dropped -/

/-- C8: a tick firing against a room whose `active` flag has been cleared
since it was scheduled performs no state mutation on the room, emits no
broadcast (or any output), and schedules no successor tick (the next
timer identifier is unchanged and the firing only consumes the fired
timer). -/
theorem c8_stale_tick_dropped (cat : List Script) (s : Sys) (id : Nat)
    (h : s.room.sceneStarted = false) :
    (step cat s (Ev.tickFire id)).1.room = s.room ∧
    (step cat s (Ev.tickFire id)).2 = [] ∧
    (step cat s (Ev.tickFire id)).1.nextId = s.nextId ∧
    (step cat s (Ev.tickFire id)).1.pending = s.pending.erase id := by
  simp only [step, stepTickFire]
  by_cases hmem : id ∈ s.pending
  · rw [if_pos hmem]
    simp [advanceChar, h, applyTick]
  · rw [if_neg hmem]
    simp [List.erase_of_not_mem hmem]

/-- Witness for C8: a concrete stale tick (timer `0` outstanding, scene
already stopped) is dropped. -/
theorem c8_witness :
    (step catalogC
      { roomExists := true, room := { rPunct with sceneStarted := false },
        pending := [0], nextId := 1 }
      (Ev.tickFire 0)).2 = [] := by
  exact (c8_stale_tick_dropped catalogC
    { roomExists := true, room := { rPunct with sceneStarted := false },
      pending := [0], nextId := 1 }
    0 (by decide)).2.1

/-! ## C2: tick scheduling discipline -/

/-- C2 counterexample: a second `startScene` while a scene is already
running starts a second timer chain without cancelling the first, so
two outstanding scheduled ticks for the same room are reachable by a
sequence of client events. -/
theorem c2_counterexample :
    (run catalogC initSys
      [Ev.createRoom (some "a"), Ev.selectScript "long",
       Ev.startScene, Ev.startScene]).1.pending = [0, 1] := by decide

theorem applyTick_nextId_le (s : Sys) (tr : TickResult) :
    (applyTick s tr).nextId ≤ s.nextId + 1 := by
  cases h : tr.sched <;> simp [applyTick, h]

theorem stepCreateRoom_nextId (req : Option String) (s : Sys) :
    (stepCreateRoom req s).1.nextId = s.nextId := by
  unfold stepCreateRoom
  repeat' split
  all_goals rfl

theorem stepDeleteRoom_nextId (req : Option String) (s : Sys) :
    (stepDeleteRoom req s).1.nextId = s.nextId := by
  unfold stepDeleteRoom
  repeat' split
  all_goals rfl

theorem stepSelectScript_nextId (cat : List Script) (sid : String) (s : Sys) :
    (stepSelectScript cat sid s).1.nextId = s.nextId := by
  unfold stepSelectScript
  repeat' split
  all_goals rfl

theorem stepAssignCharacter_nextId (ch user : String) (s : Sys) :
    (stepAssignCharacter ch user s).1.nextId = s.nextId := by
  unfold stepAssignCharacter
  repeat' split
  all_goals rfl

theorem stepStopScene_nextId (s : Sys) :
    (stepStopScene s).1.nextId = s.nextId := by
  unfold stepStopScene
  repeat' split
  all_goals rfl

theorem stepEndScene_nextId (s : Sys) :
    (stepEndScene s).1.nextId = s.nextId := by
  unfold stepEndScene
  repeat' split
  all_goals rfl

theorem stepStartScene_nextId_le (s : Sys) :
    (stepStartScene s).1.nextId ≤ s.nextId + 1 := by
  unfold stepStartScene
  split
  · simp
  · split
    · simp
    · split
      · simp
      · exact applyTick_nextId_le _ _

theorem stepTickFire_nextId_le (id : Nat) (s : Sys) :
    (stepTickFire id s).1.nextId ≤ s.nextId + 1 := by
  unfold stepTickFire
  split
  · exact applyTick_nextId_le _ _
  · simp

/-- C2 amended: every event schedules at most one new tick, and a new
tick is scheduled only by a `startScene` (its inline first tick) or
from within a firing tick (self-chaining); however `startScene` does
not cancel an existing chain, so a second `startScene` while a scene is
running yields two concurrently outstanding chains (see the
counterexample). -/
theorem c2_amended (cat : List Script) (s : Sys) (e : Ev) :
    (step cat s e).1.nextId ≤ s.nextId + 1 ∧
    ((step cat s e).1.nextId ≠ s.nextId →
      e = Ev.startScene ∨ ∃ id, e = Ev.tickFire id) := by
  cases e with
  | createRoom req =>
    have h : (step cat s (Ev.createRoom req)).1.nextId = s.nextId :=
      stepCreateRoom_nextId req s
    exact ⟨by omega, fun hne => absurd h hne⟩
  | deleteRoom req =>
    have h : (step cat s (Ev.deleteRoom req)).1.nextId = s.nextId :=
      stepDeleteRoom_nextId req s
    exact ⟨by omega, fun hne => absurd h hne⟩
  | selectScript sid =>
    have h : (step cat s (Ev.selectScript sid)).1.nextId = s.nextId :=
      stepSelectScript_nextId cat sid s
    exact ⟨by omega, fun hne => absurd h hne⟩
  | assignCharacter ch user =>
    have h : (step cat s (Ev.assignCharacter ch user)).1.nextId = s.nextId :=
      stepAssignCharacter_nextId ch user s
    exact ⟨by omega, fun hne => absurd h hne⟩
  | startScene =>
    have h : (step cat s Ev.startScene).1.nextId ≤ s.nextId + 1 :=
      stepStartScene_nextId_le s
    exact ⟨h, fun _ => Or.inl rfl⟩
  | stopScene =>
    have h : (step cat s Ev.stopScene).1.nextId = s.nextId :=
      stepStopScene_nextId s
    exact ⟨by omega, fun hne => absurd h hne⟩
  | endScene =>
    have h : (step cat s Ev.endScene).1.nextId = s.nextId :=
      stepEndScene_nextId s
    exact ⟨by omega, fun hne => absurd h hne⟩
  | tickFire id =>
    have h : (step cat s (Ev.tickFire id)).1.nextId ≤ s.nextId + 1 :=
      stepTickFire_nextId_le id s
    exact ⟨h, fun _ => Or.inr ⟨id, rfl⟩⟩

/-- Witness for C2's amended theorem at a concrete running state: the next
timer identifier grows by at most one per event. -/
theorem c2_witness :
    (step catalogC sRunning Ev.startScene).1.nextId ≤ sRunning.nextId + 1 :=
  (c2_amended catalogC sRunning Ev.startScene).1

/-! ## C3: startScene preconditions and error reporting -/

/-- C3 counterexample: `startScene` against an existing room with no
selected script is a silent no-op — the state is unchanged and no
error (indeed no output at all) is reported to the requesting
connection, contradicting "fails with an error reported only to the
requesting connection". -/
theorem c3_counterexample :
    sIdle.room.scriptData = none ∧
    step catalogC sIdle Ev.startScene = (sIdle, []) := by decide

/-- C3 amended: `startScene` succeeds only when the room has a selected
script and every character of its cast has a truthy claimant.  When no
script is selected it is a silent no-op (state unchanged, nothing
emitted, no tick scheduled); when a script is selected but the cast is
incomplete it leaves the state unchanged, schedules no tick, and emits
exactly one error, to the requesting connection only (never broadcast);
on success it broadcasts the scene-started snapshot.  A scene never
starts with a partial cast. -/
theorem c3_start_scene_precondition (cat : List Script) (s : Sys)
    (hex : s.roomExists = true) :
    (s.room.scriptData = none → step cat s Ev.startScene = (s, [])) ∧
    (∀ sc, s.room.scriptData = some sc →
      (allAssigned sc s.room.characterAssignments = false →
        step cat s Ev.startScene =
          (s, [Out.reply (Msg.errorMessage "All characters must be assigned")])) ∧
      (allAssigned sc s.room.characterAssignments = true →
        ∃ rest, (step cat s Ev.startScene).2 =
          Out.broadcast theRoom (Msg.sceneStartedMsg 0 0) :: rest)) := by
  constructor
  · intro hnone
    simp [step, stepStartScene, hex, hnone]
  · intro sc hsc
    constructor
    · intro hfail
      simp [step, stepStartScene, hex, hsc, hfail]
    · intro hok
      simp [step, stepStartScene, hex, hsc, hok]

/-- Witness for C3 at the concrete state `sPunct` (script selected, cast
`["A"]` unassigned): the failure emits exactly the incomplete-cast
error to the requester and leaves the state unchanged. -/
theorem c3_witness :
    step catalogC sPunct Ev.startScene =
      (sPunct, [Out.reply (Msg.errorMessage "All characters must be assigned")]) := by
  exact ((c3_start_scene_precondition catalogC sPunct (by decide)).2
    scPunct (by decide)).1 (by decide)

/-! ## C5: assignCharacter -/

/-- C5 counterexample: `assignCharacter` mutates and broadcasts even when
the character is not a member of the selected script's character set —
the handler checks only that the character is unclaimed, not script
membership.  Here `"Z"` is not in `scPunct.characters = ["A"]`, yet the
claim is recorded and broadcast. -/
theorem c5_counterexample :
    sPunct.room.scriptData = some scPunct ∧
    scPunct.characters.contains "Z" = false ∧
    lookupA (step catalogC sPunct
      (Ev.assignCharacter "Z" "bob")).1.room.characterAssignments "Z"
      = some "bob" ∧
    (step catalogC sPunct (Ev.assignCharacter "Z" "bob")).2 ≠ [] := by decide

/-- C5 amended: `assignCharacter` mutates and broadcasts exactly when the
room exists and the character currently has no truthy claimant — script
membership is not checked.  When the character is already (truthily)
claimed it is a strict no-op: the state (in particular the prior
claimant) is unchanged and nothing is emitted, so at most one identity
is recorded as the claimant of a character at any instant
(first-claim-wins). -/
theorem c5_assign_first_claim_wins (cat : List Script) (s : Sys)
    (ch user : String) :
    (truthyStr (lookupA s.room.characterAssignments ch) = true →
      step cat s (Ev.assignCharacter ch user) = (s, [])) ∧
    (s.roomExists = true →
      truthyStr (lookupA s.room.characterAssignments ch) = false →
      lookupA (step cat s
          (Ev.assignCharacter ch user)).1.room.characterAssignments ch
        = some user ∧
      (step cat s (Ev.assignCharacter ch user)).2 =
        [Out.broadcast theRoom (Msg.characterAssignmentsMsg
          (setA s.room.characterAssignments ch user))]) := by
  constructor
  · intro hcl
    by_cases hex : s.roomExists = false
    · simp [step, stepAssignCharacter, hex]
    · simp [step, stepAssignCharacter, hex, hcl]
  · intro hex hcl
    simp [step, stepAssignCharacter, hex, hcl, lookupA_setA]

/-- Witness for C5: claiming the already-claimed `"A"` in `rPunct`
(claimant `"bob"`) is a strict no-op. -/
theorem c5_witness :
    step catalogC sRunning (Ev.assignCharacter "A" "eve") = (sRunning, []) :=
  (c5_assign_first_claim_wins catalogC sRunning "A" "eve").1 (by decide)

/-! ## C6: selectScript -/

/-- C6 counterexample: selecting a script does NOT clear the room's
characterAssignments table — a claim recorded before the selection is
still present afterwards. -/
theorem c6_counterexample :
    lookupA (run catalogC initSys
      [Ev.createRoom (some "a"), Ev.assignCharacter "A" "bob",
       Ev.selectScript "long"]).1.room.characterAssignments "A"
      = some "bob" := by decide

/-- C6 amended: for every room, selecting a valid script installs the
script and its timing configuration and resets the playback state to
its initial state (`sceneStarted = false`, cursor at line 0 / char 0),
but leaves the room's characterAssignments table (and the outstanding
timer state) unchanged. -/
theorem c6_select_script_resets_playback (cat : List Script) (sid : String)
    (sc : Script) (s : Sys) (hex : s.roomExists = true)
    (hfind : cat.find? (fun c => c.id == sid) = some sc) :
    (step cat s (Ev.selectScript sid)).1.room.characterAssignments
      = s.room.characterAssignments ∧
    (step cat s (Ev.selectScript sid)).1.room.sceneStarted = false ∧
    (step cat s (Ev.selectScript sid)).1.room.currentLineIndex = 0 ∧
    (step cat s (Ev.selectScript sid)).1.room.currentCharIndex = 0 ∧
    (step cat s (Ev.selectScript sid)).1.room.script = some sid ∧
    (step cat s (Ev.selectScript sid)).1.room.scriptData = some sc ∧
    (step cat s (Ev.selectScript sid)).1.room.karaokeStep
      = sc.karaokeStepOv.getD 2 ∧
    (step cat s (Ev.selectScript sid)).1.room.baseDelay
      = sc.baseDelayOv.getD 90 ∧
    (step cat s (Ev.selectScript sid)).1.room.punctuationDelay
      = sc.punctuationDelayOv.getD 300 ∧
    (step cat s (Ev.selectScript sid)).1.room.lineTimer = s.room.lineTimer ∧
    (step cat s (Ev.selectScript sid)).1.pending = s.pending := by
  simp [step, stepSelectScript, hex, hfind]

/-- Witness for C6 at the concrete trace state: selecting `"punct"` on the
idle room resets the cursor and leaves the (empty) assignment table. -/
theorem c6_witness :
    (step catalogC sIdle (Ev.selectScript "punct")).1.room.scriptData
      = some scPunct ∧
    (step catalogC sIdle (Ev.selectScript "punct")).1.room.currentLineIndex
      = 0 := by
  have h := c6_select_script_resets_playback catalogC "punct" scPunct sIdle
    (by decide) (by decide)
  exact ⟨h.2.2.2.2.2.1, h.2.2.1⟩

/-! ## C9: stopScene -/

/-- C9 counterexample: `stopScene` on an already-idle room is not free of
observable effects — it still broadcasts `sceneStopped` to the room. -/
theorem c9_counterexample :
    sIdle.room.sceneStarted = false ∧
    (step catalogC sIdle Ev.stopScene).2
      = [Out.broadcast theRoom Msg.sceneStopped] := by decide

/-- C9 amended: `stopScene` on an existing room always cancels the stored
timer, clears `sceneStarted`, resets the cursor to (0,0) and broadcasts
"scene stopped" — also when the room is already idle (so the call is
not observationally a no-op).  It is idempotent on the state: a second
consecutive `stopScene` does not change the state further. -/
theorem c9_stop_scene (cat : List Script) (s : Sys)
    (hex : s.roomExists = true) :
    (step cat s Ev.stopScene).1.room.sceneStarted = false ∧
    (step cat s Ev.stopScene).1.room.currentLineIndex = 0 ∧
    (step cat s Ev.stopScene).1.room.currentCharIndex = 0 ∧
    (step cat s Ev.stopScene).1.room.lineTimer = none ∧
    (step cat s Ev.stopScene).1.pending
      = (match s.room.lineTimer with
         | some t => s.pending.erase t
         | none => s.pending) ∧
    (step cat s Ev.stopScene).2 = [Out.broadcast theRoom Msg.sceneStopped] ∧
    (step cat (step cat s Ev.stopScene).1 Ev.stopScene).1
      = (step cat s Ev.stopScene).1 := by
  obtain ⟨ex, r, pend, nid⟩ := s
  simp only at hex
  subst hex
  simp [step, stepStopScene]

/-- Witness for C9 at the concrete running state `sRunning`: stopping
cancels the outstanding timer `0` and resets the room. -/
theorem c9_witness :
    (step catalogC sRunning Ev.stopScene).1.pending = [] ∧
    (step catalogC sRunning Ev.stopScene).1.room.sceneStarted = false := by
  have h := c9_stop_scene catalogC sRunning (by decide)
  exact ⟨by rw [h.2.2.2.2.1]; decide, h.1⟩

/-! ## C7: deleteRoom -/

/-- Once the room is gone from the registry and no timer is outstanding,
every event other than a `createRoom` is a complete no-op. -/
theorem dead_step (cat : List Script) (s : Sys) (e : Ev) (hd : Dead s)
    (hne : ∀ req, e ≠ Ev.createRoom req) : step cat s e = (s, []) := by
  obtain ⟨h1, h2⟩ := hd
  cases e with
  | createRoom req => exact absurd rfl (hne req)
  | deleteRoom req => simp [step, stepDeleteRoom, h1]
  | selectScript sid => simp [step, stepSelectScript, h1]
  | assignCharacter ch u => simp [step, stepAssignCharacter, h1]
  | startScene => simp [step, stepStartScene, h1]
  | stopScene => simp [step, stepStopScene, h1]
  | endScene => simp [step, stepEndScene, h1]
  | tickFire id => simp [step, stepTickFire, h2]

/-- A dead system stays dead and silent along any trace that does not
re-create the room. -/
theorem dead_run (cat : List Script) :
    ∀ evs s, Dead s → noCreate evs → run cat s evs = (s, []) := by
  intro evs
  induction evs with
  | nil => intro s _ _; rfl
  | cons e es ih =>
    intro s hd hnc
    have hne : ∀ req, e ≠ Ev.createRoom req := by
      intro req heq
      exact hnc req (by simp [heq])
    have hstep := dead_step cat s e hd hne
    simp only [run, hstep]
    rw [ih s hd (fun req hm => hnc req (List.mem_cons_of_mem _ hm))]
    rfl

/-- C7 amended: `deleteRoom` on a nonexistent room is a silent no-op (no
`NotFound` error is reported); an unauthenticated or non-admin
requester gets an error on their own connection only, with the state
unchanged; a successful admin delete (from a single-chain state)
removes the room, cancels the outstanding playback timer, notifies and
evicts the members — and afterwards no `lineProgress` (indeed no
output at all) is observable along any trace that does not re-create
the room. -/
theorem c7_delete_room (cat : List Script) (s : Sys) (req : Option String) :
    (s.roomExists = false → step cat s (Ev.deleteRoom req) = (s, [])) ∧
    (s.roomExists = true → req = none →
      step cat s (Ev.deleteRoom req) =
        (s, [Out.reply (Msg.errorMessage "Unauthorized")])) ∧
    (∀ u, s.roomExists = true → req = some u → s.room.admin ≠ u →
      step cat s (Ev.deleteRoom req) =
        (s, [Out.reply (Msg.errorMessage
          "Only the room admin can delete this room")])) ∧
    (∀ u, s.roomExists = true → req = some u → s.room.admin = u →
      WFtimer s →
      (step cat s (Ev.deleteRoom req)).1.roomExists = false ∧
      (step cat s (Ev.deleteRoom req)).1.pending = [] ∧
      (step cat s (Ev.deleteRoom req)).2 =
        [Out.broadcast theRoom (Msg.roomDeleted theRoom), Out.evict theRoom,
         Out.globalEmit Msg.roomsMsg] ∧
      ∀ evs, noCreate evs →
        (run cat (step cat s (Ev.deleteRoom req)).1 evs).2 = []) := by
  refine ⟨?_, ?_, ?_, ?_⟩
  · intro hex
    simp [step, stepDeleteRoom, hex]
  · intro hex hreq
    subst hreq
    simp [step, stepDeleteRoom, hex]
  · intro u hex hreq hadm
    subst hreq
    simp [step, stepDeleteRoom, hex, hadm]
  · intro u hex hreq hadm hwf
    subst hreq
    have hpend : (step cat s (Ev.deleteRoom (some u))).1.pending = [] := by
      simp only [step, stepDeleteRoom, hex, if_false, Bool.true_eq_false, hadm]
      unfold WFtimer at hwf
      cases hlt : s.room.lineTimer with
      | none => simp_all
      | some t =>
        rw [hlt] at hwf
        rcases hwf with h | h <;> simp_all [List.erase]
    have hgone : (step cat s (Ev.deleteRoom (some u))).1.roomExists = false := by
      simp [step, stepDeleteRoom, hex, hadm]
    refine ⟨hgone, hpend, ?_, ?_⟩
    · simp [step, stepDeleteRoom, hex, hadm]
    · intro evs hnc
      rw [dead_run cat evs _ ⟨hgone, hpend⟩ hnc]

/-- C7 counterexample: `deleteRoom` against a nonexistent room is a silent
no-op — no `NotFound` error is reported to the requesting connection
(nothing is emitted at all), contradicting the claimed error report. -/
theorem c7_counterexample :
    initSys.roomExists = false ∧
    step catalogC initSys (Ev.deleteRoom (some "a")) = (initSys, []) := by
  decide

/-- Witness for C7 at the running state `sRunning` (admin `"a"`, timer `0`
outstanding): the admin delete cancels the timer and a subsequent
`stopScene` observes nothing. -/
theorem c7_witness :
    (step catalogC sRunning (Ev.deleteRoom (some "a"))).1.pending = [] ∧
    (run catalogC (step catalogC sRunning (Ev.deleteRoom (some "a"))).1
      [Ev.stopScene]).2 = [] := by
  have h := (c7_delete_room catalogC sRunning (some "a")).2.2.2 "a" rfl rfl
    rfl (Or.inr rfl)
  exact ⟨h.2.1, h.2.2.2 [Ev.stopScene] (by intro req hm; simp at hm)⟩

/-! ## C10: disconnect vs leaveRoom -/

/-- C10: on disconnect, the socket's identity is removed from the global
presence list (first occurrence) and its entry is removed from every
room's members map where it is truthily present, but every room's
characterAssignments table is left completely unchanged.  By contrast,
the explicit `leaveRoom` handler deletes exactly the assignments held
by the leaver: afterwards no looked-up claimant equals the leaver's
name, while every assignment with a different claimant is preserved. -/
theorem c10_disconnect_frame (au : List String)
    (rooms : List (String × RoomInfo)) (sid : String) (un : Option String)
    (r : RoomInfo) :
    ((disconnectStep au rooms sid un).2.map
        (fun p => (p.1, p.2.characterAssignments))
      = rooms.map (fun p => (p.1, p.2.characterAssignments))) ∧
    ((disconnectStep au rooms sid un).1
      = match un with
        | some u => au.erase u
        | none => au) ∧
    (∀ p ∈ rooms, truthyStr (lookupA p.2.members sid) = true →
      (p.1, { p.2 with members := eraseA p.2.members sid })
        ∈ (disconnectStep au rooms sid un).2) ∧
    (∀ ch v, lookupA (leaveRoomStep r sid).characterAssignments ch = some v →
      (some v == lookupA r.members sid) = false) ∧
    (∀ ch v, lookupA r.characterAssignments ch = some v →
      (some v == lookupA r.members sid) = false →
      lookupA (leaveRoomStep r sid).characterAssignments ch = some v) := by
  refine ⟨?_, rfl, ?_, ?_, ?_⟩
  · simp only [disconnectStep, List.map_map]
    apply List.map_congr_left
    intro p _
    by_cases h : truthyStr (lookupA p.2.members sid) = true <;>
      simp [Function.comp, h]
  · intro p hp htr
    have hmem := List.mem_map_of_mem
      (fun q => if truthyStr (lookupA q.2.members sid) then
        (q.1, { q.2 with members := eraseA q.2.members sid }) else q) hp
    simp only [htr, if_true] at hmem
    exact hmem
  · intro ch v h
    exact lookupA_filter_ne r.characterAssignments (lookupA r.members sid)
      ch v h
  · intro ch v h hv
    exact lookupA_filter_keep r.characterAssignments (lookupA r.members sid)
      ch v h hv

/-- Witness for C10 at a concrete room: after `leaveRoom` of socket
`"s1"` (name `"u"`), the claim of `"A"` (held by `"u"`) is gone while
the claim of `"B"` (held by `"w"`) survives; disconnect leaves both. -/
theorem c10_witness :
    lookupA (leaveRoomStep
      { freshRoom "a" with
          members := [("s1", "u")]
          characterAssignments := [("A", "u"), ("B", "w")] }
      "s1").characterAssignments "B" = some "w" := by
  exact (c10_disconnect_frame [] []
    "s1" none { freshRoom "a" with
      members := [("s1", "u")]
      characterAssignments := [("A", "u"), ("B", "w")] }).2.2.2.2
    "B" "w" (by decide) (by decide)

/-! ## C4: the active-flag / outstanding-timer invariant -/

/-- Running the tick body on an active room with a valid cursor: the timer
handle and script are untouched; if the body does not reschedule, the
scene has just finished (`sceneStarted` cleared); if it reschedules,
the scene is still active and the cursor is again valid. -/
theorem advanceChar_active (r : RoomInfo) (h1 : r.sceneStarted = true)
    (h2 : cursorOK r) :
    (advanceChar r).room.lineTimer = r.lineTimer ∧
    ((advanceChar r).sched = none → (advanceChar r).room.sceneStarted = false) ∧
    ((advanceChar r).sched ≠ none → (advanceChar r).room.sceneStarted = true ∧
      cursorOK (advanceChar r).room) := by
  cases hsd : r.scriptData with
  | none => simp [cursorOK, hsd] at h2
  | some sc =>
    have hlt : r.currentLineIndex < sc.lines.length := by
      simpa [cursorOK, hsd] using h2
    have hline : sc.lines.get? r.currentLineIndex =
        some (sc.lines.get ⟨r.currentLineIndex, hlt⟩) :=
      List.get?_eq_get hlt
    simp only [advanceChar, h1, hsd, hline, Bool.true_eq_false, if_false]
    split_ifs with hA hB
    · exact ⟨rfl, fun _ => rfl, fun hcon => absurd rfl hcon⟩
    · refine ⟨rfl, fun hcon => absurd hcon (by simp), fun _ => ⟨rfl, ?_⟩⟩
      simp only [cursorOK]
      omega
    · refine ⟨rfl, fun hcon => absurd hcon (by simp), fun _ => ⟨rfl, ?_⟩⟩
      simp only [cursorOK]
      omega

theorem inv_createRoom (req : Option String) (s : Sys) (hinv : InvC4 s) :
    InvC4 (stepCreateRoom req s).1 := by
  obtain ⟨hno, hyes⟩ := hinv
  cases req with
  | none => exact ⟨hno, hyes⟩
  | some u =>
    by_cases hex : s.roomExists
    · simpa [stepCreateRoom, hex] using ⟨hno, hyes⟩
    · have hpend : s.pending = [] := hno (by simpa using hex)
      simp [stepCreateRoom, hex, InvC4, WFtimer, freshRoom, hpend]

theorem inv_deleteRoom (req : Option String) (s : Sys) (hinv : InvC4 s) :
    InvC4 (stepDeleteRoom req s).1 := by
  obtain ⟨hno, hyes⟩ := hinv
  by_cases hex : s.roomExists = false
  · simpa [stepDeleteRoom, hex] using ⟨hno, hyes⟩
  · have hex' : s.roomExists = true := by simpa using hex
    obtain ⟨hwf, _, _⟩ := hyes hex'
    cases req with
    | none => simpa [stepDeleteRoom, hex] using ⟨hno, hyes⟩
    | some u =>
      by_cases hadm : s.room.admin ≠ u
      · simpa [stepDeleteRoom, hex, hadm] using ⟨hno, hyes⟩
      · have hpend : (match s.room.lineTimer with
            | some t => s.pending.erase t
            | none => s.pending) = [] := by
          unfold WFtimer at hwf
          cases hlt : s.room.lineTimer with
          | none => simp_all
          | some t =>
            rw [hlt] at hwf
            rcases hwf with h | h <;> simp_all [List.erase]
        simp [stepDeleteRoom, hex, hadm, InvC4, hpend]

theorem inv_selectScript (cat : List Script) (sid : String) (s : Sys)
    (hinv : InvC4 s) (hallow : s.room.sceneStarted = false) :
    InvC4 (stepSelectScript cat sid s).1 := by
  obtain ⟨hno, hyes⟩ := hinv
  by_cases hex : s.roomExists = false
  · simpa [stepSelectScript, hex] using ⟨hno, hyes⟩
  · have hex' : s.roomExists = true := by simpa using hex
    have hpend : s.pending = [] := (hyes hex').2.2 hallow
    cases hf : cat.find? (fun sc => sc.id == sid) with
    | none => simpa [stepSelectScript, hex, hf] using ⟨hno, hyes⟩
    | some sc =>
      simp only [stepSelectScript, hex, if_false, Bool.true_eq_false, hf,
        InvC4, WFtimer]
      refine ⟨fun hcon => by simp_all, fun _ => ⟨?_, ?_, fun _ => hpend⟩⟩
      · cases s.room.lineTimer <;> simp [hpend]
      · intro hcon
        simp at hcon

theorem inv_assignCharacter (ch user : String) (s : Sys) (hinv : InvC4 s) :
    InvC4 (stepAssignCharacter ch user s).1 := by
  obtain ⟨hno, hyes⟩ := hinv
  by_cases hex : s.roomExists = false
  · simpa [stepAssignCharacter, hex] using ⟨hno, hyes⟩
  · have hex' : s.roomExists = true := by simpa using hex
    by_cases hcl : truthyStr (lookupA s.room.characterAssignments ch) = true
    · simpa [stepAssignCharacter, hex, hcl] using ⟨hno, hyes⟩
    · obtain ⟨hwf, hst, hid⟩ := hyes hex'
      refine ⟨by simp [stepAssignCharacter, hex, hcl], fun _ => ?_⟩
      refine ⟨?_, ?_, ?_⟩
      · simpa [stepAssignCharacter, hex, hcl, WFtimer] using hwf
      · intro hstart
        have hmain := hst (by simpa [stepAssignCharacter, hex, hcl] using hstart)
        simpa [stepAssignCharacter, hex, hcl, cursorOK] using hmain
      · intro hstop
        have hp := hid (by simpa [stepAssignCharacter, hex, hcl] using hstop)
        simpa [stepAssignCharacter, hex, hcl] using hp

theorem inv_stopScene (s : Sys) (hinv : InvC4 s) :
    InvC4 (stepStopScene s).1 := by
  obtain ⟨hno, hyes⟩ := hinv
  by_cases hex : s.roomExists = false
  · simpa [stepStopScene, hex] using ⟨hno, hyes⟩
  · have hex' : s.roomExists = true := by simpa using hex
    obtain ⟨hwf, _, _⟩ := hyes hex'
    have hpend : (match s.room.lineTimer with
        | some t => s.pending.erase t
        | none => s.pending) = [] := by
      unfold WFtimer at hwf
      cases hlt : s.room.lineTimer with
      | none => simp_all
      | some t =>
        rw [hlt] at hwf
        rcases hwf with h | h <;> simp_all [List.erase]
    simp [stepStopScene, hex, InvC4, WFtimer, hpend]

theorem inv_endScene (s : Sys) (hinv : InvC4 s) :
    InvC4 (stepEndScene s).1 := by
  obtain ⟨hno, hyes⟩ := hinv
  by_cases hex : s.roomExists = false
  · simpa [stepEndScene, hex] using ⟨hno, hyes⟩
  · have hex' : s.roomExists = true := by simpa using hex
    obtain ⟨hwf, _, _⟩ := hyes hex'
    have hpend : (match s.room.lineTimer with
        | some t => s.pending.erase t
        | none => s.pending) = [] := by
      unfold WFtimer at hwf
      cases hlt : s.room.lineTimer with
      | none => simp_all
      | some t =>
        rw [hlt] at hwf
        rcases hwf with h | h <;> simp_all [List.erase]
    simp [stepEndScene, hex, InvC4, WFtimer, hpend]

/-- Invariant propagation through `applyTick` from an empty pending list,
for the tick result of running `advanceChar` on an active room with a
valid cursor. -/
theorem inv_applyTick (s0 : Sys) (hex : s0.roomExists = true)
    (hpend : s0.pending = [])
    (h1 : s0.room.sceneStarted = true) (h2 : cursorOK s0.room) :
    InvC4 (applyTick s0 (advanceChar s0.room)) := by
  obtain ⟨hlt, hnone, hsome⟩ := advanceChar_active s0.room h1 h2
  cases hs : (advanceChar s0.room).sched with
  | none =>
    have hstop := hnone hs
    refine ⟨fun hcon => by simp [applyTick, hs, hpend], fun _ => ?_⟩
    refine ⟨?_, ?_, ?_⟩
    · simp only [applyTick, hs, WFtimer, hlt]
      cases s0.room.lineTimer <;> simp [hpend]
    · intro hstart
      have : (advanceChar s0.room).room.sceneStarted = true := by
        simpa [applyTick, hs] using hstart
      rw [hstop] at this
      cases this
    · intro _
      simp [applyTick, hs, hpend]
  | some d =>
    obtain ⟨hstart, hcur⟩ := hsome (by simp [hs])
    have hexp : (applyTick s0 (advanceChar s0.room)).roomExists = true := by
      simp [applyTick, hs, hex]
    refine ⟨fun hcon => ?_, fun _ => ?_⟩
    · rw [hexp] at hcon
      cases hcon
    refine ⟨?_, ?_, ?_⟩
    · simp [applyTick, hs, WFtimer, hpend]
    · intro _
      refine ⟨by simp [applyTick, hs, hpend], ?_⟩
      simpa [applyTick, hs, cursorOK] using hcur
    · intro hstop
      have : (advanceChar s0.room).room.sceneStarted = false := by
        simpa [applyTick, hs] using hstop
      rw [hstart] at this
      cases this

theorem inv_startScene (s : Sys) (hinv : InvC4 s)
    (hallow : allowedEv s Ev.startScene) :
    InvC4 (stepStartScene s).1 := by
  obtain ⟨hno, hyes⟩ := hinv
  by_cases hex : s.roomExists = false
  · simpa [stepStartScene, hex] using ⟨hno, hyes⟩
  · have hex' : s.roomExists = true := by simpa using hex
    obtain ⟨hidle, hlines⟩ := hallow hex'
    cases hsd : s.room.scriptData with
    | none => simpa [stepStartScene, hex, hsd] using ⟨hno, hyes⟩
    | some sc =>
      by_cases hass : allAssigned sc s.room.characterAssignments = false
      · simpa [stepStartScene, hex, hsd, hass] using ⟨hno, hyes⟩
      · have hpend : s.pending = [] := (hyes hex').2.2 hidle
        have hlen : 0 < sc.lines.length := by
          have hne := hlines sc hsd
          cases hl : sc.lines with
          | nil => exact absurd hl hne
          | cons a l => simp [hl]
        have hmain := inv_applyTick
          { s with room := { s.room with sceneStarted := true
                                         currentLineIndex := 0
                                         currentCharIndex := 0 } }
          hex' hpend rfl (by simpa [cursorOK, hsd] using hlen)
        simpa [stepStartScene, hex, hsd, hass] using hmain

theorem inv_tickFire (id : Nat) (s : Sys) (hinv : InvC4 s) :
    InvC4 (stepTickFire id s).1 := by
  obtain ⟨hno, hyes⟩ := hinv
  by_cases hmem : id ∈ s.pending
  · have hex' : s.roomExists = true := by
      by_contra hcon
      have hp : s.pending = [] := hno (by simpa using hcon)
      simp [hp] at hmem
    obtain ⟨hwf, hst, hid⟩ := hyes hex'
    have hstart : s.room.sceneStarted = true := by
      by_contra hcon
      have hp : s.pending = [] := hid (by simpa using hcon)
      simp [hp] at hmem
    obtain ⟨_, hcur⟩ := hst hstart
    have hpend0 : (s.pending.erase id) = [] := by
      unfold WFtimer at hwf
      cases hlt : s.room.lineTimer with
      | none =>
        rw [hlt] at hwf
        simp [hwf] at hmem
      | some t =>
        rw [hlt] at hwf
        rcases hwf with h | h
        · simp [h] at hmem
        · rw [h] at hmem ⊢
          simp at hmem
          simp [hmem, List.erase]
    have hmain := inv_applyTick { s with pending := s.pending.erase id }
      hex' hpend0 hstart hcur
    simpa [stepTickFire, hmem] using hmain
  · simpa [stepTickFire, hmem] using ⟨hno, hyes⟩

theorem invC4_step (cat : List Script) (s : Sys) (e : Ev) (hinv : InvC4 s)
    (hallow : allowedEv s e) : InvC4 (step cat s e).1 := by
  cases e with
  | createRoom req => exact inv_createRoom req s hinv
  | deleteRoom req => exact inv_deleteRoom req s hinv
  | selectScript sid => exact inv_selectScript cat sid s hinv hallow
  | assignCharacter ch user => exact inv_assignCharacter ch user s hinv
  | startScene => exact inv_startScene s hinv hallow
  | stopScene => exact inv_stopScene s hinv
  | endScene => exact inv_endScene s hinv
  | tickFire id => exact inv_tickFire id s hinv

/-- C4 counterexample: `startScene` on a script whose lines sequence is
empty leaves `sceneStarted = true` with no outstanding timer (and, the
handler having returned, no tick in flight) — refuting
"active == true implies an outstanding scheduled timer exists or a tick
is currently in-flight ... including when startScene is invoked on a
script whose lines sequence is empty". -/
theorem c4_counterexample :
    (run catalogC initSys
      [Ev.createRoom (some "a"), Ev.selectScript "empty",
       Ev.startScene]).1.roomExists = true ∧
    (run catalogC initSys
      [Ev.createRoom (some "a"), Ev.selectScript "empty",
       Ev.startScene]).1.room.sceneStarted = true ∧
    (run catalogC initSys
      [Ev.createRoom (some "a"), Ev.selectScript "empty",
       Ev.startScene]).1.pending = [] := by decide

/-- C4 amended: the invariant — `active == true` implies an outstanding
scheduled tick (with a single-chain timer handle and a valid cursor)
and `active == false` implies no outstanding timer — holds after every
operation along every trace in which `startScene` is only invoked
against an idle room whose selected script has a nonempty lines
sequence and `selectScript` only against an idle room.  (The C4
counterexample shows an empty-lines `startScene` violates it, and the
C2 counterexample shows a second `startScene` while running breaks the
single-chain discipline.) -/
theorem c4_active_iff_timer (cat : List Script) :
    ∀ evs s, InvC4 s → allowedTrace cat s evs → InvC4 (run cat s evs).1 := by
  intro evs
  induction evs with
  | nil =>
    intro s h _
    simpa [run] using h
  | cons e es ih =>
    intro s h hall
    obtain ⟨h1, h2⟩ := hall
    simp only [run]
    exact ih _ (invC4_step cat s e h h1) h2

/-- Witness for C4: the invariant holds at `initSys` and is carried through
a concrete allowed trace that creates the room, selects the nonempty
script and starts the scene. -/
theorem c4_witness :
    InvC4 (run catalogC initSys
      [Ev.createRoom (some "a"), Ev.selectScript "long",
       Ev.startScene]).1 := by
  refine c4_active_iff_timer catalogC
    [Ev.createRoom (some "a"), Ev.selectScript "long", Ev.startScene]
    initSys ⟨fun _ => rfl, fun hcon => by simp [initSys] at hcon⟩
    ⟨trivial, ?_, ?_, trivial⟩
  · show (step catalogC initSys
      (Ev.createRoom (some "a"))).1.room.sceneStarted = false
    decide
  · intro _
    refine ⟨by decide, ?_⟩
    intro sc hsc
    have heq : (some scLong : Option Script) = some sc := by
      rw [← hsc]
      decide
    cases heq
    decide

end BitK
